import Mathlib

/-!
Verification development for the conversational state-machine runtime in
`src/state_machine` (engine `state_machine.py`, capability traits
`special_states.py`, context utilities `utils.py`, reference storage
`storages/sqlite_storage.py`).

Modelling conventions (shallow embedding):
* Hook bodies (`on_enter`, `on_exit`, the two action handlers) are arbitrary
  context transformations `Int → Ctx → Ctx`; the transport agent (`bot`)
  parameter only carries output side effects, which are irrelevant to these
  claims, so it is dropped from hook signatures.
* Every hook invocation and persistence call performed by the engine is
  recorded in an event trace, so ordering and exactly-once claims are
  statements about the trace.
* Python `dict[str, Any]` contexts are association lists with string keys.
* The unbounded `while` chain loop of `_switch_state` is given an explicit
  fuel parameter; exhausting the fuel is the `fuelOut` outcome, distinct from
  the `keyError` outcome modelling a `KeyError` raised by `self._states[...]`.
* `SwitcherResult = StateName | None` is `Option StateName`; note that
  `handle_action` tests the walrus-assigned result for *truthiness* (so the
  empty string means "no transition") while the chain loop tests `is not None`.
-/

namespace SM

/-- Context variable values (enough of Python's JSON-serialisable values for
the claims under study). -/
inductive Val where
  | vInt (n : Int)
  | vStr (s : String)
  | vBool (b : Bool)
deriving DecidableEq

/-- `StateName: TypeAlias = str` from `state_machine.py`. -/
abbrev StateName := String

/-- `ContextVars: TypeAlias = dict[str, Any]`: a string-keyed mapping,
modelled as an association list (Python dicts keep unique keys, which the
lookup-based statements below do not even need to assume). -/
abbrev Ctx := List (String × Val)

/-- An inbound Telegram message, reduced to the fields the engine and the
traits consult (`from_user.id`, `text`). -/
structure Msg where
  fromUser : Int
  text : Option String
deriving DecidableEq

/-- An inbound callback query, reduced to the fields the engine consults. -/
structure Cb where
  fromUser : Int
  payload : String
deriving DecidableEq

/-- `Action = Message | CallbackQuery` from `state_machine.py`. -/
inductive Action where
  | message (m : Msg)
  | callback (q : Cb)
deriving DecidableEq

/-- `action.from_user.id` as used by `handle_action`. -/
def Action.fromUser : Action → Int
  | .message m => m.fromUser
  | .callback q => q.fromUser

/-- The `State` contract of `state_machine.py`: a named behavioural unit with
lifecycle hooks, action handlers and two switch-resolution hooks.  Hooks are
modelled as context transformations; their agent-directed output is not
observable by the engine and is omitted. -/
structure State where
  name : StateName
  on_enter : Int → Ctx → Ctx
  on_exit : Int → Ctx → Ctx
  message_handler : Msg → Int → Ctx → Ctx
  callback_handler : Cb → Int → Ctx → Ctx
  after_action_switcher : Action → Ctx → Option StateName
  after_enter_switcher : Ctx → Option StateName

/-- The registry built by `_make_states_dict`: an insertion-ordered
name-to-state mapping. -/
abbrev Registry := List (StateName × State)

/-- Events the engine emits while handling one action, in execution order.
`exit`/`enter` record the lifecycle hook invocations, `handledMessage` /
`handledCallback` the handler dispatches, `setState`/`setContext` the calls
into the storage port. -/
inductive Event where
  | enter (n : StateName)
  | exit (n : StateName)
  | handledMessage (n : StateName)
  | handledCallback (n : StateName)
  | setState (n : StateName)
  | setContext (c : Ctx)
deriving DecidableEq

/-- Outcome of one engine operation: normal return, a propagated `KeyError`
from an unregistered transition target, or fuel exhaustion standing for a
diverging transition chain. -/
inductive Outcome where
  | ok
  | keyError (n : StateName)
  | fuelOut
deriving DecidableEq

/-- Result of `_switch_state` (and of its chain loop): outcome, the context as
it stands at the exit moment, the events emitted, and the state table after
the `set_state` calls. -/
structure RunResult where
  outcome : Outcome
  ctx : Ctx
  trace : List Event
  st : Int → Option StateName

/-- Result of `handle_action`: additionally the context table after the
`finally`-guaranteed `set_context`. -/
structure HandleResult where
  outcome : Outcome
  ctx : Ctx
  trace : List Event
  stateTab : Int → Option StateName
  ctxTab : Int → Option Ctx

/-- Point update of a storage table (the upsert semantics of
`StateMachineStorage.set_state` / `set_context`). -/
def updateTab {α : Type} (t : Int → Option α) (k : Int) (v : α) : Int → Option α :=
  fun x => if x = k then some v else t x

/-- The loop of `_make_states_dict`: insert each state under its name,
raising (here: `Except.error`) when the name is already present. -/
def _make_states_dict_go : List State → Registry → Except String Registry
  | [], states_dict => .ok states_dict
  | state :: rest, states_dict =>
    if (List.lookup state.name states_dict).isSome then
      .error ("Несколько состояний имеют одно имя " ++ state.name ++ ".")
    else
      _make_states_dict_go rest (states_dict ++ [(state.name, state)])

/-- `_make_states_dict` from `state_machine.py`. -/
def _make_states_dict (states : List State) : Except String Registry :=
  _make_states_dict_go states []

/-- The engine: registry plus default state (the storage port is passed to
each operation explicitly; the bot is opaque and dropped). -/
structure StateMachine where
  states : Registry
  default_state : State

/-- `StateMachine.__init__`: build the registry via `_make_states_dict`, then
assert that the default state's name is registered. -/
def StateMachine.make (states : List State) (default_state : State) :
    Except String StateMachine :=
  match _make_states_dict states with
  | .error e => .error e
  | .ok states_dict =>
    if (List.lookup default_state.name states_dict).isSome then
      .ok ⟨states_dict, default_state⟩
    else
      .error ("Неизвестное состояние по умолчанию " ++ default_state.name ++ ".")

/-- The abstract storage port state: the (session → state name) and
(session → context) tables behind `StateMachineStorage`. -/
structure Storage where
  stateTab : Int → Option StateName
  ctxTab : Int → Option Ctx

/-- `StateMachine._get_state`: read the stored name and resolve it in the
registry with `dict.get` (unknown or absent names resolve to `None`). -/
def _get_state (reg : Registry) (stored : Option StateName) : Option State :=
  match stored with
  | none => none
  | some state_name => List.lookup state_name reg

/-- The `while next_state_name is not None` loop of `_switch_state`, fuelled.
Each iteration resolves the target with `self._states[next_state_name]`
(a `KeyError` when unregistered), runs `on_exit` of the state being left and
`on_enter` of the target, persists the target's name via `set_state`, and asks
the target's `after_enter_switcher` for a further transition. -/
def switch_chain (reg : Registry) (chat_id : Int) :
    Nat → State → Ctx → (Int → Option StateName) → RunResult
  | fuel, next_state, context, st =>
    match next_state.after_enter_switcher context with
    | none => ⟨.ok, context, [], st⟩
    | some next_state_name =>
      match fuel with
      | 0 => ⟨.fuelOut, context, [], st⟩
      | fuel' + 1 =>
        match List.lookup next_state_name reg with
        | none => ⟨.keyError next_state_name, context, [], st⟩
        | some ns =>
          let context2 := ns.on_enter chat_id (next_state.on_exit chat_id context)
          let r := switch_chain reg chat_id fuel' ns context2 (updateTab st chat_id ns.name)
          ⟨r.outcome, r.ctx,
            Event.exit next_state.name :: Event.enter ns.name ::
              Event.setState ns.name :: r.trace, r.st⟩

/-- `StateMachine._switch_state`: `on_exit` of the current state when there is
one, `on_enter` of the next state, `set_state`, then the
`after_enter_switcher` chain loop. -/
def switch_state (reg : Registry) (chat_id : Int) (current_state : Option State)
    (next_state : State) (context : Ctx) (st : Int → Option StateName)
    (fuel : Nat) : RunResult :=
  let context0 := match current_state with
    | some c => c.on_exit chat_id context
    | none => context
  let tr0 : List Event := match current_state with
    | some c => [Event.exit c.name]
    | none => []
  let context1 := next_state.on_enter chat_id context0
  let r := switch_chain reg chat_id fuel next_state context1
    (updateTab st chat_id next_state.name)
  ⟨r.outcome, r.ctx,
    tr0 ++ Event.enter next_state.name :: Event.setState next_state.name :: r.trace,
    r.st⟩

/-- The `match action` handler dispatch of `handle_action`: messages go to
`message_handler`, callback queries to `callback_handler`. -/
def dispatch_handler (current_state : State) (action : Action) (chat_id : Int)
    (context : Ctx) : Ctx :=
  match action with
  | .message msg => current_state.message_handler msg chat_id context
  | .callback q => current_state.callback_handler q chat_id context

/-- The trace event recording the handler dispatch of `handle_action`. -/
def dispatch_event (current_state : State) (action : Action) : List Event :=
  match action with
  | .message _ => [Event.handledMessage current_state.name]
  | .callback _ => [Event.handledCallback current_state.name]

/-- Assemble a `HandleResult`, applying the `finally` clause of the
`_context` context manager: `set_context` is called with the context as it
stands at the exit moment, on every exit path. -/
def finishHandle (stg : Storage) (chat_id : Int) (outcome : Outcome) (context : Ctx)
    (trace : List Event) (st : Int → Option StateName) : HandleResult :=
  ⟨outcome, context, trace ++ [Event.setContext context], st,
    updateTab stg.ctxTab chat_id context⟩

/-- `StateMachine.handle_action`: acquire the context
(`get_context(..) or {}`), resolve the current state; when unresolved,
force-switch into the default state and return; otherwise dispatch the action
to the matching handler, then follow `after_action_switcher`, whose result is
tested for truthiness (`if next_state_name := ...`), with
`self._states[next_state_name]` raising on an unregistered target. -/
def handle_action (m : StateMachine) (stg : Storage) (fuel : Nat)
    (action : Action) : HandleResult :=
  let chat_id := action.fromUser
  let context := (stg.ctxTab chat_id).getD []
  match _get_state m.states (stg.stateTab chat_id) with
  | none =>
    let r := switch_state m.states chat_id none m.default_state context stg.stateTab fuel
    finishHandle stg chat_id r.outcome r.ctx r.trace r.st
  | some current_state =>
    let context1 := dispatch_handler current_state action chat_id context
    let tr1 := dispatch_event current_state action
    match current_state.after_action_switcher action context1 with
    | none => finishHandle stg chat_id .ok context1 tr1 stg.stateTab
    | some next_state_name =>
      if next_state_name = "" then
        finishHandle stg chat_id .ok context1 tr1 stg.stateTab
      else
        match List.lookup next_state_name m.states with
        | none =>
          finishHandle stg chat_id (.keyError next_state_name) context1 tr1 stg.stateTab
        | some next_state =>
          let r := switch_state m.states chat_id (some current_state) next_state
            context1 stg.stateTab fuel
          finishHandle stg chat_id r.outcome r.ctx (tr1 ++ r.trace) r.st

/-! ### Context utilities (`utils.py`) -/

/-- `remove_context_vars` from `utils.py`: for each listed key, `del` it from
the mapping, swallowing the `KeyError` raised when the key is absent. -/
def remove_context_vars (context : Ctx) (keys : List String) : Ctx :=
  keys.foldl (fun c key => c.filter (fun p => p.1 != key)) context

/-- `ClearVarsOnExit.on_exit` from `special_states.py`: remove the keys listed
in `clearing_vars` from the context on leaving the state. -/
def ClearVarsOnExit_on_exit (clearing_vars : List String) (_chat_id : Int)
    (context : Ctx) : Ctx :=
  remove_context_vars context clearing_vars

/-! ### `ValidateOnMessage` (`special_states.py`)

The hook methods may mutate the context and emit messages through the bot;
both effects are kept (`Ctx × List String` is context plus sent texts), and
`validate` records which hook it invoked in a hook-event list. -/

/-- Which hook `ValidateOnMessage.validate` invoked. -/
inductive VEvent where
  | correctCalled
  | incorrectCalled
deriving DecidableEq

/-- A `ValidateOnMessage` subclass: the abstract `validator` plus the two
(overridable) hooks.  A hook returns the new context and the texts it sent. -/
structure ValidateOnMessage (α : Type) where
  validator : Msg → Option α
  on_correct : α → Int → Ctx → Ctx × List String
  on_incorrect : Msg → Int → Ctx → Ctx × List String

/-- The base-class default for `on_correct`: a no-op. -/
def default_on_correct {α : Type} : α → Int → Ctx → Ctx × List String :=
  fun _ _ context => (context, [])

/-- The base-class default for `on_incorrect`: send the generic
invalid-input notice. -/
def default_on_incorrect : Msg → Int → Ctx → Ctx × List String :=
  fun _ _ context => (context, ["Недопустимый ввод!"])

/-- `ValidateOnMessage.validate`: run `validator`; on a non-`None` value call
`on_correct` with it, otherwise call `on_incorrect`.  The third component
records the hook invocation. -/
def ValidateOnMessage.validate {α : Type} (S : ValidateOnMessage α) (message : Msg)
    (chat_id : Int) (context : Ctx) : Ctx × List String × List VEvent :=
  match S.validator message with
  | some value =>
    let r := S.on_correct value chat_id context
    (r.1, r.2, [VEvent.correctCalled])
  | none =>
    let r := S.on_incorrect message chat_id context
    (r.1, r.2, [VEvent.incorrectCalled])

/-- `ValidateOnMessage.message_handler` delegates to `validate`. -/
def ValidateOnMessage.message_handler {α : Type} (S : ValidateOnMessage α)
    (message : Msg) (chat_id : Int) (context : Ctx) : Ctx × List String × List VEvent :=
  S.validate message chat_id context

/-! ### SQLite storage (`storages/sqlite_storage.py`)

The `Context` table is keyed by `chat_id` (PRIMARY KEY) and stores the
context serialised by the registered adapter `json.dumps`; reads go through
the converter `json.loads`.  The table is a partial map `Int → Option String`;
`_set_context`'s `insert .. on conflict .. do update` is a point update.
`json.dumps` / `json.loads` (Python stdlib, not part of this repository) are
modelled by an executable encoder and parser for the value grammar of `Val`;
a read of unparseable text is modelled as `none`. -/

/-- JSON string escaping for the two characters the grammar below round-trips
(backslash and double quote). -/
def jsonEscape (s : String) : String :=
  String.mk (s.toList.foldr
    (fun c acc => if c = '\\' ∨ c = '"' then '\\' :: c :: acc else c :: acc) [])

/-- `json.dumps` on a single value. -/
def jsonEncodeVal : Val → String
  | .vInt n => toString n
  | .vStr s => "\"" ++ jsonEscape s ++ "\""
  | .vBool b => if b then "true" else "false"

/-- `json.dumps` on the members of an object, with the default
`", "` / `": "` separators. -/
def jsonEncodePairs : List (String × Val) → String
  | [] => ""
  | [(k, v)] => "\"" ++ jsonEscape k ++ "\": " ++ jsonEncodeVal v
  | (k, v) :: rest =>
    "\"" ++ jsonEscape k ++ "\": " ++ jsonEncodeVal v ++ ", " ++ jsonEncodePairs rest

/-- `json.dumps` on a dict. -/
def jsonEncodeCtx (c : Ctx) : String :=
  "\x7b" ++ jsonEncodePairs c ++ "\x7d"

/-- Parse the body of a JSON string literal (opening quote already consumed),
returning the characters and the remainder after the closing quote. -/
def parseStrChars : List Char → Option (List Char × List Char)
  | [] => none
  | '\\' :: c :: rest => (parseStrChars rest).map (fun r => (c :: r.1, r.2))
  | '"' :: rest => some ([], rest)
  | c :: rest => (parseStrChars rest).map (fun r => (c :: r.1, r.2))

/-- Split a leading run of decimal digits off the input. -/
def takeDigits : List Char → List Char × List Char
  | [] => ([], [])
  | c :: rest =>
    if c.isDigit then
      let r := takeDigits rest
      (c :: r.1, r.2)
    else ([], c :: rest)

/-- Numeric value of a digit run. -/
def digitsToNat (ds : List Char) : Nat :=
  ds.foldl (fun n c => n * 10 + (c.toNat - 48)) 0

/-- Parse one JSON value of the `Val` grammar. -/
def parseVal : List Char → Option (Val × List Char)
  | [] => none
  | '"' :: rest => (parseStrChars rest).map (fun r => (.vStr (String.mk r.1), r.2))
  | '-' :: rest =>
    let r := takeDigits rest
    if r.1 = [] then none else some (.vInt (-(digitsToNat r.1 : Int)), r.2)
  | 't' :: 'r' :: 'u' :: 'e' :: rest => some (.vBool true, rest)
  | 'f' :: 'a' :: 'l' :: 's' :: 'e' :: rest => some (.vBool false, rest)
  | c :: rest =>
    if c.isDigit then
      let r := takeDigits (c :: rest)
      some (.vInt (digitsToNat r.1), r.2)
    else none

/-- Parse a nonempty `", "`-separated member list; the fuel is bounded by the
input length. -/
def parsePairs : Nat → List Char → Option (List (String × Val) × List Char)
  | 0, _ => none
  | fuel + 1, input =>
    match input with
    | '"' :: rest =>
      match parseStrChars rest with
      | none => none
      | some (kcs, r1) =>
        match r1 with
        | ':' :: ' ' :: r2 =>
          match parseVal r2 with
          | none => none
          | some (v, r3) =>
            match r3 with
            | ',' :: ' ' :: r4 =>
              (parsePairs fuel r4).map (fun p => ((String.mk kcs, v) :: p.1, p.2))
            | _ => some ([(String.mk kcs, v)], r3)
        | _ => none
    | _ => none

/-- `json.loads` restricted to one flat object of the `Val` grammar. -/
def jsonDecodeCtx (s : String) : Option Ctx :=
  match s.toList with
  | ['\x7b', '\x7d'] => some []
  | '\x7b' :: rest =>
    match parsePairs rest.length rest with
    | some (ps, ['\x7d']) => some ps
    | _ => none
  | _ => none

/-- `SQLiteStateMachineStorage._set_context`: serialise via the `dict`
adapter (`json.dumps`) and upsert under the `chat_id` primary key. -/
def sqlite_set_context (tab : Int → Option String) (chat_id : Int)
    (context : Ctx) : Int → Option String :=
  updateTab tab chat_id (jsonEncodeCtx context)

/-- `SQLiteStateMachineStorage._get_context`: read the row for `chat_id`
(`None` when absent) and run the `json` converter on the stored text. -/
def sqlite_get_context (tab : Int → Option String) (chat_id : Int) : Option Ctx :=
  (tab chat_id).bind jsonDecodeCtx

/-! ### Trace observations -/

/-- Whether an event is a handler dispatch. -/
def isHandlerEvent : Event → Bool
  | .handledMessage _ => true
  | .handledCallback _ => true
  | _ => false

/-- Number of occurrences of an event in a trace. -/
def countEvent (e : Event) : List Event → Nat
  | [] => 0
  | x :: rest => (if x = e then 1 else 0) + countEvent e rest

/-- Every `enter` event is immediately followed by a `setState` of the same
name: the engine persists each entered state's name right after its
`on_enter` and before any further hook runs. -/
def entersPersisted : List Event → Bool
  | [] => true
  | .enter n :: rest =>
    (match rest with
     | .setState m :: _ => m = n
     | _ => false) && entersPersisted rest
  | _ :: rest => entersPersisted rest

/-- The name carried by the last `enter` event of a trace, if any. -/
def lastEnteredName : List Event → Option StateName
  | [] => none
  | Event.enter n :: rest => some ((lastEnteredName rest).getD n)
  | _ :: rest => lastEnteredName rest

/-! ### Concrete sample machines (used to instantiate the theorems) -/

/-- A state that records its hooks in the context, switches to `"B"` on any
action, and starts no automatic chain. -/
def sampleA : State :=
  ⟨"A", fun _ c => ("enteredA", .vBool true) :: c, fun _ c => c,
    fun _ _ c => ("gotMsg", .vBool true) :: c, fun _ _ c => c,
    fun _ _ => some "B", fun _ => none⟩

/-- A terminal state: no switching at all. -/
def sampleB : State :=
  ⟨"B", fun _ c => c, fun _ c => c, fun _ _ c => c, fun _ _ c => c,
    fun _ _ => none, fun _ => none⟩

/-- A state whose `after_action_switcher` moves to the pass-through state
`"C2"`. -/
def sampleC : State :=
  ⟨"C", fun _ c => c, fun _ c => c, fun _ _ c => c, fun _ _ c => c,
    fun _ _ => some "C2", fun _ => none⟩

/-- A pass-through state: its `after_enter_switcher` immediately moves on to
`"B"`. -/
def sampleC2 : State :=
  ⟨"C2", fun _ c => c, fun _ c => c, fun _ _ c => c, fun _ _ c => c,
    fun _ _ => none, fun _ => some "B"⟩

/-- A state whose switch hook names the unregistered state `"Z"`. -/
def sampleZsrc : State :=
  ⟨"Zsrc", fun _ c => c, fun _ c => c, fun _ _ c => c, fun _ _ c => c,
    fun _ _ => some "Z", fun _ => none⟩

/-- A state whose `after_action_switcher` returns the empty string. -/
def sampleE : State :=
  ⟨"E", fun _ c => c, fun _ c => c, fun _ _ c => c, fun _ _ c => c,
    fun _ _ => some "", fun _ => none⟩

/-- A registered state whose name is the empty string. -/
def sampleEmptyName : State :=
  ⟨"", fun _ c => c, fun _ c => c, fun _ _ c => c, fun _ _ c => c,
    fun _ _ => none, fun _ => none⟩

/-- A second state named `"A"` (for the duplicate-name configuration error). -/
def sampleA2 : State :=
  ⟨"A", fun _ c => c, fun _ c => c, fun _ _ c => c, fun _ _ c => c,
    fun _ _ => none, fun _ => none⟩

/-- Registry with the chain `C → C2 → B`. -/
def sampleReg : Registry :=
  [("A", sampleA), ("B", sampleB), ("C", sampleC), ("C2", sampleC2)]

/-- Machine over `sampleReg` with default state `A`. -/
def sampleMachine : StateMachine := ⟨sampleReg, sampleA⟩

/-- Machine containing the state whose switch hook names unregistered `"Z"`. -/
def sampleMachineZ : StateMachine :=
  ⟨[("Zsrc", sampleZsrc), ("A", sampleA), ("B", sampleB)], sampleA⟩

/-- Machine containing `sampleE` and a state registered under the empty
name. -/
def sampleMachineE : StateMachine :=
  ⟨[("E", sampleE), ("", sampleEmptyName)], sampleE⟩

/-- Empty storage: no session known. -/
def sampleStorageNew : Storage := ⟨fun _ => none, fun _ => none⟩

/-- Storage with session 7 parked in a given state name. -/
def sampleStorageIn (n : StateName) : Storage :=
  ⟨fun k => if k = 7 then some n else none, fun _ => none⟩

/-- A message from session 7. -/
def sampleMsg : Action := .message ⟨7, some "hi"⟩

/-- A concrete `ValidateOnMessage` subclass: parse the message text as the
literal `"ok"`, with the default hooks. -/
def sampleValidate : ValidateOnMessage String :=
  ⟨fun m => match m.text with
    | some t => if t = "ok" then some t else none
    | none => none,
   default_on_correct, default_on_incorrect⟩

/-! ## Theorems -/

theorem lookup_filter_key (c : Ctx) (q k : String) :
    List.lookup k (c.filter (fun p => p.1 != q)) =
      if k = q then none else List.lookup k c := by
  induction c with
  | nil => simp
  | cons p rest ih =>
    obtain ⟨a, v⟩ := p
    by_cases haq : a = q
    · subst haq
      by_cases hk : k = a
      · subst hk
        simp only [List.filter_cons, bne_self_eq_false, Bool.false_eq_true, if_false, ih]
        simp
      · simp only [List.filter_cons, bne_self_eq_false, Bool.false_eq_true, if_false, ih]
        rw [List.lookup_cons, beq_eq_false_iff_ne.mpr hk]
    · have hf : (a != q) = true := bne_iff_ne.mpr haq
      by_cases hk : k = a
      · subst hk
        simp only [List.filter_cons, hf, if_true]
        rw [List.lookup_cons, List.lookup_cons, beq_self_eq_true]
        simp [haq]
      · simp only [List.filter_cons, hf, if_true]
        rw [List.lookup_cons, List.lookup_cons, beq_eq_false_iff_ne.mpr hk, ih]

theorem lookup_remove_context_vars (context : Ctx) (keys : List String) (k : String) :
    List.lookup k (remove_context_vars context keys) =
      if k ∈ keys then none else List.lookup k context := by
  induction keys generalizing context with
  | nil => simp [remove_context_vars]
  | cons q rest ih =>
    show List.lookup k (remove_context_vars (context.filter (fun p => p.1 != q)) rest) = _
    rw [ih, lookup_filter_key]
    by_cases hkr : k ∈ rest
    · simp [hkr]
    · by_cases hkq : k = q
      · simp [hkq, hkr]
      · simp [hkq, hkr]

/-- C7: `remove_context_vars` removes exactly the listed keys — afterwards no
listed key is present and every unlisted key keeps its original binding;
removing an absent key is a no-op raising no error; and
`ClearVarsOnExit.on_exit` is exactly this removal applied to `clearing_vars`. -/
theorem remove_context_vars_spec (context : Ctx) (keys : List String) (k : String)
    (chat_id : Int) :
    (List.lookup k (remove_context_vars context keys) =
      if k ∈ keys then none else List.lookup k context) ∧
    (List.lookup k context = none → remove_context_vars context [k] = context) ∧
    ClearVarsOnExit_on_exit keys chat_id context = remove_context_vars context keys := by
  refine ⟨lookup_remove_context_vars context keys k, ?_, rfl⟩
  intro habs
  show context.filter (fun p => p.1 != k) = context
  rw [List.filter_eq_self]
  intro p hp
  rw [bne_iff_ne]
  intro hpk
  have : List.lookup k context ≠ none := by
    clear habs
    induction context with
    | nil => cases hp
    | cons q rest ih =>
      rcases List.mem_cons.mp hp with hq | hq
      · subst hq
        rw [List.lookup_cons, hpk, beq_self_eq_true]
        simp
      · rw [List.lookup_cons]
        cases hkq : k == q.1
        · exact ih hq
        · simp
  exact this habs

/-- C7 witness: a concrete context and key list. -/
theorem remove_context_vars_spec_witness :
    (List.lookup "y" (remove_context_vars [("x", Val.vInt 1), ("y", Val.vInt 2)] ["x", "z"]) =
      if "y" ∈ ["x", "z"] then none else List.lookup "y" [("x", Val.vInt 1), ("y", Val.vInt 2)]) ∧
    (List.lookup "y" ([("x", Val.vInt 1)] : Ctx) = none →
      remove_context_vars [("x", Val.vInt 1)] ["y"] = [("x", Val.vInt 1)]) ∧
    ClearVarsOnExit_on_exit ["x", "z"] 7 [("x", Val.vInt 1), ("y", Val.vInt 2)] =
      remove_context_vars [("x", Val.vInt 1), ("y", Val.vInt 2)] ["x", "z"] := by
  refine ⟨(remove_context_vars_spec [("x", Val.vInt 1), ("y", Val.vInt 2)] ["x", "z"] "y" 7).1,
    fun h => ?_, (remove_context_vars_spec [("x", Val.vInt 1), ("y", Val.vInt 2)] ["x", "z"] "y" 7).2.2⟩
  exact (remove_context_vars_spec [("x", Val.vInt 1)] ["y"] "y" 7).2.1 h

/-- C9: on the SQLite storage model, `set_context s {"a": 1}` followed by
`get_context s` round-trips through the JSON-serialised column and returns a
mapping equal to `{"a": 1}`, for every session identity and prior table
content (upsert write, keyed read). -/
theorem sqlite_context_roundtrip (s : Int) (tab : Int → Option String) :
    sqlite_get_context (sqlite_set_context tab s [("a", Val.vInt 1)]) s =
      some [("a", Val.vInt 1)] := by
  show ((updateTab tab s (jsonEncodeCtx [("a", Val.vInt 1)])) s).bind jsonDecodeCtx = _
  rw [show (updateTab tab s (jsonEncodeCtx [("a", Val.vInt 1)])) s =
      some (jsonEncodeCtx [("a", Val.vInt 1)]) from if_pos rfl]
  decide

/-- C8: `ValidateOnMessage.message_handler` (which delegates to `validate`)
invokes exactly one of the two hooks per message: `on_correct` with the
parsed value when `validator` returns a non-`None` result, `on_incorrect`
otherwise; the base-class `on_incorrect` emits the generic invalid-input
notice. -/
theorem validate_runs_exactly_one_hook {α : Type} (S : ValidateOnMessage α)
    (message : Msg) (chat_id : Int) (context : Ctx) :
    ((S.message_handler message chat_id context).2.2.length = 1) ∧
    (∀ v, S.validator message = some v →
      S.message_handler message chat_id context =
        ((S.on_correct v chat_id context).1, (S.on_correct v chat_id context).2,
          [VEvent.correctCalled])) ∧
    (S.validator message = none →
      S.message_handler message chat_id context =
        ((S.on_incorrect message chat_id context).1,
          (S.on_incorrect message chat_id context).2, [VEvent.incorrectCalled])) ∧
    (S.on_incorrect = default_on_incorrect → S.validator message = none →
      (S.message_handler message chat_id context).2.1 = ["Недопустимый ввод!"]) := by
  cases h : S.validator message with
  | none =>
    refine ⟨?_, ?_, ?_, ?_⟩
    · simp [ValidateOnMessage.message_handler, ValidateOnMessage.validate, h]
    · intro v hv; simp at hv
    · intro _; simp [ValidateOnMessage.message_handler, ValidateOnMessage.validate, h]
    · intro hdef _
      simp [ValidateOnMessage.message_handler, ValidateOnMessage.validate, h, hdef,
        default_on_incorrect]
  | some v =>
    refine ⟨?_, ?_, ?_, ?_⟩
    · simp [ValidateOnMessage.message_handler, ValidateOnMessage.validate, h]
    · intro w hw
      cases hw
      simp [ValidateOnMessage.message_handler, ValidateOnMessage.validate, h]
    · intro hn; simp at hn
    · intro _ hn; simp at hn

/-- C8 witness: the sample validator accepts `"ok"` and rejects `"no"`, the
rejection going through the default notice-sending hook. -/
theorem validate_runs_exactly_one_hook_witness :
    sampleValidate.validator ⟨7, some "ok"⟩ = some "ok" ∧
    (ValidateOnMessage.message_handler sampleValidate ⟨7, some "ok"⟩ 7 []).2.2 =
      [VEvent.correctCalled] ∧
    sampleValidate.validator ⟨7, some "no"⟩ = none ∧
    (ValidateOnMessage.message_handler sampleValidate ⟨7, some "no"⟩ 7 []).2.1 =
      ["Недопустимый ввод!"] := by
  refine ⟨rfl, ?_, rfl, ?_⟩
  · rw [(validate_runs_exactly_one_hook sampleValidate ⟨7, some "ok"⟩ 7 []).2.1 "ok" rfl]
  · exact (validate_runs_exactly_one_hook sampleValidate ⟨7, some "no"⟩ 7 []).2.2.2 rfl rfl

/-- C4: `handle_action` commits the context on every exit path: whatever the
outcome (normal completion, the default-state early return, a propagated
`KeyError`), the final act is a `set_context` carrying the context exactly as
it stands at that moment, and the context table records it for the session. -/
theorem handle_action_commits_context (m : StateMachine) (stg : Storage)
    (fuel : Nat) (action : Action) :
    (handle_action m stg fuel action).ctxTab action.fromUser =
      some (handle_action m stg fuel action).ctx ∧
    (handle_action m stg fuel action).trace.getLast? =
      some (Event.setContext (handle_action m stg fuel action).ctx) := by
  unfold handle_action
  cases h : _get_state m.states (stg.stateTab action.fromUser) with
  | none => simp [h, finishHandle, updateTab, List.getLast?_concat]
  | some cs =>
    simp only [h]
    split
    all_goals try split
    all_goals try split
    all_goals simp [finishHandle, updateTab, List.getLast?_concat]

/-- C10: when the current state's `after_action_switcher` returns the empty
string, `handle_action` performs no transition at all — no `on_exit`, no
`on_enter`, stored state name unchanged — even when a state named `""` is
registered, because the walrus `if next_state_name := ...` tests truthiness;
the chain loop of `_switch_state`, in contrast, tests `is not None` and does
transition into the state registered under `""`. -/
theorem falsy_switcher_no_transition
    (m : StateMachine) (stg : Storage) (fuel : Nat) (action : Action)
    (current_state z : State)
    (hcur : _get_state m.states (stg.stateTab action.fromUser) = some current_state)
    (hsw : current_state.after_action_switcher action
      (dispatch_handler current_state action action.fromUser
        ((stg.ctxTab action.fromUser).getD [])) = some "")
    (hreg : List.lookup "" m.states = some z) :
    (handle_action m stg fuel action).outcome = .ok ∧
    (handle_action m stg fuel action).stateTab = stg.stateTab ∧
    (∀ n : StateName, Event.enter n ∉ (handle_action m stg fuel action).trace ∧
      Event.exit n ∉ (handle_action m stg fuel action).trace) ∧
    (∀ (next : State) (ctx : Ctx) (st : Int → Option StateName) (f : Nat),
      next.after_enter_switcher ctx = some "" →
      Event.enter z.name ∈ (switch_chain m.states action.fromUser (f + 1) next ctx st).trace) := by
  refine ⟨?_, ?_, ?_, ?_⟩
  · simp [handle_action, hcur, hsw, finishHandle]
  · simp [handle_action, hcur, hsw, finishHandle]
  · intro n
    constructor
    · simp only [handle_action, hcur, hsw]
      cases action <;> simp [finishHandle, dispatch_event]
    · simp only [handle_action, hcur, hsw]
      cases action <;> simp [finishHandle, dispatch_event]
  · intro next ctx st f hen
    rw [switch_chain]
    simp only [hen, hreg]
    simp

/-- C6: a switch hook naming an unregistered state makes that
`handle_action` call fail with a propagated `KeyError` — both when
`after_action_switcher` names it (first conjunct) and when a chained
`after_enter_switcher` names it inside the chain loop (second conjunct); no
ahead-of-time existence validation intervenes. -/
theorem unregistered_target_fails
    (m : StateMachine) (stg : Storage) (fuel : Nat) (action : Action)
    (current_state : State) (n : StateName)
    (hcur : _get_state m.states (stg.stateTab action.fromUser) = some current_state)
    (hsw : current_state.after_action_switcher action
      (dispatch_handler current_state action action.fromUser
        ((stg.ctxTab action.fromUser).getD [])) = some n)
    (hne : n ≠ "")
    (hmiss : List.lookup n m.states = none) :
    (handle_action m stg fuel action).outcome = .keyError n ∧
    (∀ (next : State) (ctx : Ctx) (st : Int → Option StateName) (f : Nat) (u : StateName),
      next.after_enter_switcher ctx = some u → List.lookup u m.states = none →
      (switch_chain m.states action.fromUser (f + 1) next ctx st).outcome = .keyError u) := by
  constructor
  · simp [handle_action, hcur, hsw, hne, hmiss, finishHandle]
  · intro next ctx st f u hen hu
    rw [switch_chain]
    simp only [hen, hu]

/-- C2: when the session's current state is registered, its
`after_action_switcher` returns a registered, truthy target and the target's
`after_enter_switcher` yields no further transition, one `handle_action` call
produces exactly one `on_exit` of the source and exactly one `on_enter` of
the target, the exit strictly before the enter, all before the call
returns. -/
theorem single_transition_ordering
    (m : StateMachine) (stg : Storage) (fuel : Nat) (action : Action)
    (current_state target : State) (t : StateName)
    (hcur : _get_state m.states (stg.stateTab action.fromUser) = some current_state)
    (hsw : current_state.after_action_switcher action
      (dispatch_handler current_state action action.fromUser
        ((stg.ctxTab action.fromUser).getD [])) = some t)
    (hne : t ≠ "")
    (hreg : List.lookup t m.states = some target)
    (hstop : target.after_enter_switcher
      (target.on_enter action.fromUser
        (current_state.on_exit action.fromUser
          (dispatch_handler current_state action action.fromUser
            ((stg.ctxTab action.fromUser).getD [])))) = none) :
    (handle_action m stg fuel action).outcome = .ok ∧
    countEvent (Event.exit current_state.name) (handle_action m stg fuel action).trace = 1 ∧
    countEvent (Event.enter target.name) (handle_action m stg fuel action).trace = 1 ∧
    ∃ i j : Nat, i < j ∧
      (handle_action m stg fuel action).trace.get? i = some (Event.exit current_state.name) ∧
      (handle_action m stg fuel action).trace.get? j = some (Event.enter target.name) := by
  have htr : (handle_action m stg fuel action).trace =
      dispatch_event current_state action ++
        [Event.exit current_state.name, Event.enter target.name,
         Event.setState target.name,
         Event.setContext (target.on_enter action.fromUser
           (current_state.on_exit action.fromUser
             (dispatch_handler current_state action action.fromUser
               ((stg.ctxTab action.fromUser).getD []))))] := by
    simp only [handle_action, hcur, hsw, hne, hreg, switch_state, switch_chain, hstop]
    simp [finishHandle, hne]
  have hout : (handle_action m stg fuel action).outcome = .ok := by
    simp only [handle_action, hcur, hsw, hne, hreg, switch_state, switch_chain, hstop]
    simp [finishHandle, hne]
  refine ⟨hout, ?_, ?_, ?_⟩
  · rw [htr]; cases action <;> simp [dispatch_event, countEvent]
  · rw [htr]; cases action <;> simp [dispatch_event, countEvent]
  · refine ⟨1, 2, by omega, ?_, ?_⟩ <;>
      (rw [htr]; cases action <;> simp [dispatch_event])


/-- C10 witness: session 7 sits in state `E` whose switcher returns `""`
while a state named `""` is registered. -/
theorem falsy_switcher_no_transition_witness :
    List.lookup "" sampleMachineE.states = some sampleEmptyName ∧
    (handle_action sampleMachineE (sampleStorageIn "E") 5 sampleMsg).outcome = .ok ∧
    (handle_action sampleMachineE (sampleStorageIn "E") 5 sampleMsg).stateTab =
      (sampleStorageIn "E").stateTab :=
  ⟨rfl,
   (falsy_switcher_no_transition sampleMachineE (sampleStorageIn "E") 5 sampleMsg
     sampleE sampleEmptyName rfl rfl rfl).1,
   (falsy_switcher_no_transition sampleMachineE (sampleStorageIn "E") 5 sampleMsg
     sampleE sampleEmptyName rfl rfl rfl).2.1⟩

/-- C6 witness: session 7 sits in a state whose switcher names the
unregistered `"Z"`. -/
theorem unregistered_target_fails_witness :
    ("Z" : StateName) ≠ "" ∧ List.lookup "Z" sampleMachineZ.states = none ∧
    (handle_action sampleMachineZ (sampleStorageIn "Zsrc") 5 sampleMsg).outcome =
      .keyError "Z" :=
  ⟨by decide, rfl,
   (unregistered_target_fails sampleMachineZ (sampleStorageIn "Zsrc") 5 sampleMsg
     sampleZsrc "Z" rfl rfl (by decide) rfl).1⟩

/-- C2 witness: session 7 in state `A`, whose switcher always moves to `B`. -/
theorem single_transition_ordering_witness :
    (handle_action sampleMachine (sampleStorageIn "A") 5 sampleMsg).outcome = .ok ∧
    countEvent (Event.exit sampleA.name)
      (handle_action sampleMachine (sampleStorageIn "A") 5 sampleMsg).trace = 1 ∧
    countEvent (Event.enter sampleB.name)
      (handle_action sampleMachine (sampleStorageIn "A") 5 sampleMsg).trace = 1 :=
  let h := single_transition_ordering sampleMachine (sampleStorageIn "A") 5 sampleMsg
    sampleA sampleB "B" rfl rfl (by decide) rfl rfl
  ⟨h.1, h.2.1, h.2.2.1⟩

theorem lookup_append_eq_none {β : Type} (k : String) (l1 l2 : List (String × β)) :
    List.lookup k (l1 ++ l2) = none ↔
      List.lookup k l1 = none ∧ List.lookup k l2 = none := by
  induction l1 with
  | nil => simp
  | cons p rest ih =>
    obtain ⟨a, b⟩ := p
    cases hk : k == a <;> simp [List.lookup_cons, hk, ih]

theorem make_states_go_ok_eq :
    ∀ (states : List State) (acc d : Registry),
    _make_states_dict_go states acc = .ok d →
    d = acc ++ states.map (fun s => (s.name, s)) := by
  intro states
  induction states with
  | nil =>
    intro acc d h
    simp only [_make_states_dict_go] at h
    injection h with h
    simp [h]
  | cons s rest ih =>
    intro acc d h
    simp only [_make_states_dict_go] at h
    split at h
    · simp at h
    · have := ih (acc ++ [(s.name, s)]) d h
      simpa [List.append_assoc] using this

theorem make_states_go_ok_names :
    ∀ (states : List State) (acc d : Registry),
    _make_states_dict_go states acc = .ok d →
    (states.map State.name).Nodup ∧ ∀ s ∈ states, List.lookup s.name acc = none := by
  intro states
  induction states with
  | nil => intro acc d _; exact ⟨List.nodup_nil, by simp⟩
  | cons s rest ih =>
    intro acc d h
    simp only [_make_states_dict_go] at h
    split at h
    · simp at h
    · rename_i hc
      have hacc : List.lookup s.name acc = none := by
        cases hv : List.lookup s.name acc
        · rfl
        · exact absurd (by simp [hv]) hc
      obtain ⟨hnd, hall⟩ := ih (acc ++ [(s.name, s)]) d h
      have hall2 : ∀ t ∈ rest, List.lookup t.name acc = none ∧ t.name ≠ s.name := by
        intro t ht
        have h3 := (lookup_append_eq_none t.name acc [(s.name, s)]).mp (hall t ht)
        refine ⟨h3.1, fun he => ?_⟩
        have h2 := h3.2
        rw [he] at h2
        simp [List.lookup_cons] at h2
      refine ⟨?_, ?_⟩
      · rw [List.map_cons, List.nodup_cons]
        refine ⟨fun hmem => ?_, hnd⟩
        obtain ⟨t, ht, hteq⟩ := List.mem_map.mp hmem
        exact (hall2 t ht).2 hteq
      · intro t ht
        rcases List.mem_cons.mp ht with h1 | h1
        · rw [h1]; exact hacc
        · exact (hall2 t h1).1

theorem make_states_go_ok_of_nodup :
    ∀ (states : List State) (acc : Registry),
    (states.map State.name).Nodup →
    (∀ s ∈ states, List.lookup s.name acc = none) →
    _make_states_dict_go states acc = .ok (acc ++ states.map (fun s => (s.name, s))) := by
  intro states
  induction states with
  | nil => intro acc _ _; simp [_make_states_dict_go]
  | cons s rest ih =>
    intro acc hnd hacc
    have h1 : List.lookup s.name acc = none := hacc s (List.mem_cons_self s rest)
    rw [List.map_cons, List.nodup_cons] at hnd
    simp only [_make_states_dict_go]
    rw [if_neg (by simp [h1])]
    rw [ih (acc ++ [(s.name, s)]) hnd.2 ?_]
    · simp [List.append_assoc]
    · intro t ht
      rw [lookup_append_eq_none]
      refine ⟨hacc t (List.mem_cons_of_mem s ht), ?_⟩
      have hne : t.name ≠ s.name := fun he => hnd.1 (he ▸ List.mem_map_of_mem State.name ht)
      simp [List.lookup_cons, beq_eq_false_iff_ne.mpr hne]

theorem lookup_map_self :
    ∀ (states : List State), (states.map State.name).Nodup →
    ∀ s ∈ states, List.lookup s.name (states.map (fun t => (t.name, t))) = some s := by
  intro states
  induction states with
  | nil => intro _ s hs; cases hs
  | cons q rest ih =>
    intro hnd s hs
    rw [List.map_cons] at hnd ⊢
    rw [List.nodup_cons] at hnd
    rcases List.mem_cons.mp hs with h1 | h1
    · rw [h1]
      simp [List.lookup_cons]
    · have hne : s.name ≠ q.name := fun he => hnd.1 (he ▸ List.mem_map_of_mem State.name h1)
      rw [List.lookup_cons, beq_eq_false_iff_ne.mpr hne]
      exact ih hnd.2 s h1

theorem lookup_map_none (k : StateName) :
    ∀ (states : List State), k ∉ states.map State.name →
    List.lookup k (states.map (fun t => (t.name, t))) = none := by
  intro states
  induction states with
  | nil => intro _; rfl
  | cons q rest ih =>
    intro hk
    rw [List.map_cons, List.mem_cons] at hk
    push_neg at hk
    rw [List.map_cons, List.lookup_cons, beq_eq_false_iff_ne.mpr hk.1]
    exact ih hk.2

/-- C5: `StateMachine` construction fails when two supplied states share a
name (never silently keeping one) or when the default state's name is absent
from the registered set; otherwise it succeeds with a registry mapping each
supplied state's name to that state. -/
theorem make_config_validation (states : List State) (default_state : State) :
    (¬ (states.map State.name).Nodup →
      ∃ e, StateMachine.make states default_state = .error e) ∧
    ((states.map State.name).Nodup → default_state.name ∉ states.map State.name →
      ∃ e, StateMachine.make states default_state = .error e) ∧
    ((states.map State.name).Nodup → default_state.name ∈ states.map State.name →
      ∃ mach, StateMachine.make states default_state = .ok mach ∧
        mach.default_state = default_state ∧
        mach.states = states.map (fun t => (t.name, t)) ∧
        ∀ s ∈ states, List.lookup s.name mach.states = some s) := by
  refine ⟨?_, ?_, ?_⟩
  · intro hdup
    cases hmk : _make_states_dict states with
    | error e => exact ⟨e, by simp [StateMachine.make, hmk]⟩
    | ok d => exact absurd (make_states_go_ok_names states [] d hmk).1 hdup
  · intro hnd hnm
    have hmk : _make_states_dict states = .ok (states.map (fun s => (s.name, s))) := by
      have := make_states_go_ok_of_nodup states [] hnd (by simp)
      simpa [_make_states_dict] using this
    have hlk := lookup_map_none default_state.name states hnm
    refine ⟨"Неизвестное состояние по умолчанию " ++ default_state.name ++ ".", ?_⟩
    simp [StateMachine.make, hmk, hlk]
  · intro hnd hmem
    have hmk : _make_states_dict states = .ok (states.map (fun s => (s.name, s))) := by
      have := make_states_go_ok_of_nodup states [] hnd (by simp)
      simpa [_make_states_dict] using this
    obtain ⟨s, hs, hsname⟩ := List.mem_map.mp hmem
    have hlk : List.lookup default_state.name (states.map (fun t => (t.name, t))) = some s := by
      rw [← hsname]
      exact lookup_map_self states hnd s hs
    refine ⟨⟨states.map (fun t => (t.name, t)), default_state⟩, ?_, rfl, rfl, ?_⟩
    · simp [StateMachine.make, hmk, hlk]
    · exact lookup_map_self states hnd

/-- C5 witness: a duplicate-name pair fails, a missing default fails, and a
well-formed configuration succeeds with the expected registry. -/
theorem make_config_validation_witness :
    (¬ (([sampleA, sampleA2].map State.name).Nodup) ∧
      ∃ e, StateMachine.make [sampleA, sampleA2] sampleA = .error e) ∧
    ((([sampleB].map State.name).Nodup ∧ sampleA.name ∉ [sampleB].map State.name) ∧
      ∃ e, StateMachine.make [sampleB] sampleA = .error e) ∧
    ((([sampleA, sampleB].map State.name).Nodup ∧
        sampleA.name ∈ [sampleA, sampleB].map State.name) ∧
      ∃ mach, StateMachine.make [sampleA, sampleB] sampleA = .ok mach ∧
        mach.default_state = sampleA ∧
        mach.states = [sampleA, sampleB].map (fun t => (t.name, t)) ∧
        ∀ s ∈ [sampleA, sampleB], List.lookup s.name mach.states = some s) := by
  refine ⟨⟨by decide, ?_⟩, ⟨⟨by decide, by decide⟩, ?_⟩, ⟨⟨by decide, by decide⟩, ?_⟩⟩
  · exact (make_config_validation [sampleA, sampleA2] sampleA).1 (by decide)
  · exact (make_config_validation [sampleB] sampleA).2.1 (by decide) (by decide)
  · exact (make_config_validation [sampleA, sampleB] sampleA).2.2 (by decide) (by decide)

theorem lastEnteredName_cons_some (e : Event) (l : List Event) (m : StateName)
    (h : lastEnteredName l = some m) : lastEnteredName (e :: l) = some m := by
  cases e <;> simp [lastEnteredName, h]

theorem switch_chain_no_handler (reg : Registry) (chat_id : Int) :
    ∀ (fuel : Nat) (next : State) (ctx : Ctx) (st : Int → Option StateName),
    ∀ e ∈ (switch_chain reg chat_id fuel next ctx st).trace, isHandlerEvent e = false := by
  intro fuel
  induction fuel with
  | zero =>
    intro next ctx st e he
    rw [switch_chain] at he
    rcases hsw : next.after_enter_switcher ctx with _ | n <;>
      simp only [hsw] at he <;> cases he
  | succ f ih =>
    intro next ctx st e he
    rw [switch_chain] at he
    rcases hsw : next.after_enter_switcher ctx with _ | n
    · simp only [hsw] at he
      cases he
    · simp only [hsw] at he
      rcases hlk : List.lookup n reg with _ | ns
      · simp only [hlk] at he
        cases he
      · simp only [hlk, List.mem_cons] at he
        rcases he with h | h | h | h
        · rw [h]; rfl
        · rw [h]; rfl
        · rw [h]; rfl
        · exact ih ns _ _ e h

theorem switch_chain_spec (reg : Registry) (chat_id : Int) :
    ∀ (fuel : Nat) (next : State) (ctx : Ctx) (st : Int → Option StateName),
    (switch_chain reg chat_id fuel next ctx st).outcome = .ok →
    entersPersisted (switch_chain reg chat_id fuel next ctx st).trace = true ∧
    ∃ fs : State,
      fs.after_enter_switcher (switch_chain reg chat_id fuel next ctx st).ctx = none ∧
      (((switch_chain reg chat_id fuel next ctx st).trace = [] ∧ fs = next ∧
          (switch_chain reg chat_id fuel next ctx st).st = st) ∨
        (lastEnteredName (switch_chain reg chat_id fuel next ctx st).trace = some fs.name ∧
          (switch_chain reg chat_id fuel next ctx st).st chat_id = some fs.name)) := by
  intro fuel
  induction fuel with
  | zero =>
    intro next ctx st hok
    rcases hsw : next.after_enter_switcher ctx with _ | n
    · have hres : switch_chain reg chat_id 0 next ctx st = ⟨.ok, ctx, [], st⟩ := by
        rw [switch_chain]; simp only [hsw]
      rw [hres] at hok ⊢
      exact ⟨rfl, next, hsw, Or.inl ⟨rfl, rfl, rfl⟩⟩
    · have hres : switch_chain reg chat_id 0 next ctx st = ⟨.fuelOut, ctx, [], st⟩ := by
        rw [switch_chain]; simp only [hsw]
      rw [hres] at hok
      cases hok
  | succ f ih =>
    intro next ctx st hok
    rcases hsw : next.after_enter_switcher ctx with _ | n
    · have hres : switch_chain reg chat_id (f + 1) next ctx st = ⟨.ok, ctx, [], st⟩ := by
        rw [switch_chain]; simp only [hsw]
      rw [hres] at hok ⊢
      exact ⟨rfl, next, hsw, Or.inl ⟨rfl, rfl, rfl⟩⟩
    · rcases hlk : List.lookup n reg with _ | ns
      · have hres : switch_chain reg chat_id (f + 1) next ctx st =
            ⟨.keyError n, ctx, [], st⟩ := by
          rw [switch_chain]; simp only [hsw, hlk]
        rw [hres] at hok
        cases hok
      · have hres : switch_chain reg chat_id (f + 1) next ctx st =
            ⟨(switch_chain reg chat_id f ns
                (ns.on_enter chat_id (next.on_exit chat_id ctx))
                (updateTab st chat_id ns.name)).outcome,
             (switch_chain reg chat_id f ns
                (ns.on_enter chat_id (next.on_exit chat_id ctx))
                (updateTab st chat_id ns.name)).ctx,
             Event.exit next.name :: Event.enter ns.name :: Event.setState ns.name ::
               (switch_chain reg chat_id f ns
                 (ns.on_enter chat_id (next.on_exit chat_id ctx))
                 (updateTab st chat_id ns.name)).trace,
             (switch_chain reg chat_id f ns
                (ns.on_enter chat_id (next.on_exit chat_id ctx))
                (updateTab st chat_id ns.name)).st⟩ := by
          rw [switch_chain]; simp only [hsw, hlk]
        rw [hres] at hok ⊢
        have hok2 : (switch_chain reg chat_id f ns
            (ns.on_enter chat_id (next.on_exit chat_id ctx))
            (updateTab st chat_id ns.name)).outcome = .ok := hok
        obtain ⟨hper, fs, hfs, hcase⟩ := ih ns
          (ns.on_enter chat_id (next.on_exit chat_id ctx))
          (updateTab st chat_id ns.name) hok2
        refine ⟨?_, fs, hfs, Or.inr ?_⟩
        · show entersPersisted (Event.exit next.name :: Event.enter ns.name ::
            Event.setState ns.name :: (switch_chain reg chat_id f ns
              (ns.on_enter chat_id (next.on_exit chat_id ctx))
              (updateTab st chat_id ns.name)).trace) = true
          simp [entersPersisted, hper]
        · rcases hcase with ⟨htr, hfsn, hst⟩ | ⟨hlast, hst⟩
          · subst hfsn
            constructor
            · show lastEnteredName (Event.exit next.name :: Event.enter fs.name ::
                Event.setState fs.name :: (switch_chain reg chat_id f fs
                  (fs.on_enter chat_id (next.on_exit chat_id ctx))
                  (updateTab st chat_id fs.name)).trace) = some fs.name
              rw [htr]
              simp [lastEnteredName]
            · show (switch_chain reg chat_id f fs
                  (fs.on_enter chat_id (next.on_exit chat_id ctx))
                  (updateTab st chat_id fs.name)).st chat_id = some fs.name
              rw [hst]
              simp [updateTab]
          · exact ⟨lastEnteredName_cons_some _ _ _ (lastEnteredName_cons_some _ _ _
              (lastEnteredName_cons_some _ _ _ hlast)), hst⟩

theorem entersPersisted_enter_setState (n : StateName) (tr : List Event)
    (h : entersPersisted tr = true) :
    entersPersisted (Event.enter n :: Event.setState n :: tr) = true := by
  simp [entersPersisted, h]

theorem entersPersisted_exit_enter_setState (a n : StateName) (tr : List Event)
    (h : entersPersisted tr = true) :
    entersPersisted (Event.exit a :: Event.enter n :: Event.setState n :: tr) = true := by
  simp [entersPersisted, h]

theorem lastEnteredName_enter_setState (n : StateName) (tr : List Event)
    (h : lastEnteredName tr = none) :
    lastEnteredName (Event.enter n :: Event.setState n :: tr) = some n := by
  simp [lastEnteredName, h]

/-- C3: for every transition chain over registered states that reaches a
no-transition answer within the available fuel (`outcome = ok`),
`_switch_state` stops exactly at the step whose `after_enter_switcher` yields
none: every entered state's name is persisted via `set_state` immediately
after its `on_enter` and before any further hook (`entersPersisted`), and the
persisted final state name equals the name of the last state entered. -/
theorem chain_termination_persistence
    (reg : Registry) (chat_id : Int) (current_state : Option State)
    (next_state : State) (context : Ctx) (st : Int → Option StateName) (fuel : Nat)
    (hok : (switch_state reg chat_id current_state next_state context st fuel).outcome = .ok) :
    entersPersisted
        (switch_state reg chat_id current_state next_state context st fuel).trace = true ∧
    ∃ fs : State,
      fs.after_enter_switcher
        (switch_state reg chat_id current_state next_state context st fuel).ctx = none ∧
      lastEnteredName
        (switch_state reg chat_id current_state next_state context st fuel).trace =
        some fs.name ∧
      (switch_state reg chat_id current_state next_state context st fuel).st chat_id =
        some fs.name := by
  rcases current_state with _ | c
  · have hres : switch_state reg chat_id none next_state context st fuel =
        ⟨(switch_chain reg chat_id fuel next_state
            (next_state.on_enter chat_id context)
            (updateTab st chat_id next_state.name)).outcome,
         (switch_chain reg chat_id fuel next_state
            (next_state.on_enter chat_id context)
            (updateTab st chat_id next_state.name)).ctx,
         Event.enter next_state.name :: Event.setState next_state.name ::
           (switch_chain reg chat_id fuel next_state
             (next_state.on_enter chat_id context)
             (updateTab st chat_id next_state.name)).trace,
         (switch_chain reg chat_id fuel next_state
            (next_state.on_enter chat_id context)
            (updateTab st chat_id next_state.name)).st⟩ := by
      simp only [switch_state, List.nil_append]
    rw [hres] at hok ⊢
    have hok2 : (switch_chain reg chat_id fuel next_state
        (next_state.on_enter chat_id context)
        (updateTab st chat_id next_state.name)).outcome = .ok := hok
    obtain ⟨hper, fs, hfs, hcase⟩ := switch_chain_spec reg chat_id fuel next_state
      (next_state.on_enter chat_id context) (updateTab st chat_id next_state.name) hok2
    rcases hcase with ⟨htr, hfsn, hst⟩ | ⟨hlast, hst⟩
    · subst hfsn
      refine ⟨entersPersisted_enter_setState _ _ (by rw [htr]; rfl), fs, hfs,
        lastEnteredName_enter_setState _ _ (by rw [htr]; rfl), ?_⟩
      rw [hst]
      simp [updateTab]
    · exact ⟨entersPersisted_enter_setState _ _ hper, fs, hfs,
        lastEnteredName_cons_some _ _ _ (lastEnteredName_cons_some _ _ _ hlast), hst⟩
  · have hres : switch_state reg chat_id (some c) next_state context st fuel =
        ⟨(switch_chain reg chat_id fuel next_state
            (next_state.on_enter chat_id (c.on_exit chat_id context))
            (updateTab st chat_id next_state.name)).outcome,
         (switch_chain reg chat_id fuel next_state
            (next_state.on_enter chat_id (c.on_exit chat_id context))
            (updateTab st chat_id next_state.name)).ctx,
         Event.exit c.name :: Event.enter next_state.name :: Event.setState next_state.name ::
           (switch_chain reg chat_id fuel next_state
             (next_state.on_enter chat_id (c.on_exit chat_id context))
             (updateTab st chat_id next_state.name)).trace,
         (switch_chain reg chat_id fuel next_state
            (next_state.on_enter chat_id (c.on_exit chat_id context))
            (updateTab st chat_id next_state.name)).st⟩ := by
      simp only [switch_state, List.cons_append, List.nil_append]
    rw [hres] at hok ⊢
    have hok2 : (switch_chain reg chat_id fuel next_state
        (next_state.on_enter chat_id (c.on_exit chat_id context))
        (updateTab st chat_id next_state.name)).outcome = .ok := hok
    obtain ⟨hper, fs, hfs, hcase⟩ := switch_chain_spec reg chat_id fuel next_state
      (next_state.on_enter chat_id (c.on_exit chat_id context))
      (updateTab st chat_id next_state.name) hok2
    rcases hcase with ⟨htr, hfsn, hst⟩ | ⟨hlast, hst⟩
    · subst hfsn
      refine ⟨entersPersisted_exit_enter_setState _ _ _ (by rw [htr]; rfl), fs, hfs,
        lastEnteredName_cons_some _ _ _
          (lastEnteredName_enter_setState _ _ (by rw [htr]; rfl)), ?_⟩
      rw [hst]
      simp [updateTab]
    · exact ⟨entersPersisted_exit_enter_setState _ _ _ hper, fs, hfs,
        lastEnteredName_cons_some _ _ _ (lastEnteredName_cons_some _ _ _
          (lastEnteredName_cons_some _ _ _ hlast)), hst⟩

/-- C1: when the session has no stored state name, or the stored name matches
no registered state (`_get_state` resolves to `None`), `handle_action` is
exactly the forced transition into the configured default state — the full
`_switch_state` run (default's `on_enter`, persistence and the whole
`after_enter_switcher` chain) followed by the final `set_context` — the
default state is entered, and no message or callback handler is dispatched. -/
theorem default_fallback
    (m : StateMachine) (stg : Storage) (fuel : Nat) (action : Action)
    (hcur : _get_state m.states (stg.stateTab action.fromUser) = none) :
    handle_action m stg fuel action =
      finishHandle stg action.fromUser
        (switch_state m.states action.fromUser none m.default_state
          ((stg.ctxTab action.fromUser).getD []) stg.stateTab fuel).outcome
        (switch_state m.states action.fromUser none m.default_state
          ((stg.ctxTab action.fromUser).getD []) stg.stateTab fuel).ctx
        (switch_state m.states action.fromUser none m.default_state
          ((stg.ctxTab action.fromUser).getD []) stg.stateTab fuel).trace
        (switch_state m.states action.fromUser none m.default_state
          ((stg.ctxTab action.fromUser).getD []) stg.stateTab fuel).st ∧
    Event.enter m.default_state.name ∈ (handle_action m stg fuel action).trace ∧
    ∀ e ∈ (handle_action m stg fuel action).trace, isHandlerEvent e = false := by
  have heq : handle_action m stg fuel action =
      finishHandle stg action.fromUser
        (switch_state m.states action.fromUser none m.default_state
          ((stg.ctxTab action.fromUser).getD []) stg.stateTab fuel).outcome
        (switch_state m.states action.fromUser none m.default_state
          ((stg.ctxTab action.fromUser).getD []) stg.stateTab fuel).ctx
        (switch_state m.states action.fromUser none m.default_state
          ((stg.ctxTab action.fromUser).getD []) stg.stateTab fuel).trace
        (switch_state m.states action.fromUser none m.default_state
          ((stg.ctxTab action.fromUser).getD []) stg.stateTab fuel).st := by
    simp only [handle_action, hcur]
  refine ⟨heq, ?_, ?_⟩
  · rw [heq]
    simp [finishHandle, switch_state]
  · intro e he
    rw [heq] at he
    simp only [finishHandle, List.mem_append, List.mem_singleton] at he
    rcases he with h | h
    · simp only [switch_state, List.nil_append, List.mem_cons] at h
      rcases h with h | h | h
      · rw [h]; rfl
      · rw [h]; rfl
      · exact switch_chain_no_handler m.states action.fromUser fuel m.default_state
          (m.default_state.on_enter action.fromUser ((stg.ctxTab action.fromUser).getD []))
          (updateTab stg.stateTab action.fromUser m.default_state.name) e h
    · rw [h]; rfl


/-- C3 witness: the chain `C → C2 → B`, driven by `C2`'s
`after_enter_switcher`, terminates in `B` with `B` persisted. -/
theorem chain_termination_persistence_witness :
    (switch_state sampleReg 7 (some sampleC) sampleC2 [] (fun _ => none) 5).outcome =
      .ok ∧
    entersPersisted
      (switch_state sampleReg 7 (some sampleC) sampleC2 [] (fun _ => none) 5).trace =
      true ∧
    ∃ fs : State,
      fs.after_enter_switcher
        (switch_state sampleReg 7 (some sampleC) sampleC2 [] (fun _ => none) 5).ctx =
        none ∧
      lastEnteredName
        (switch_state sampleReg 7 (some sampleC) sampleC2 [] (fun _ => none) 5).trace =
        some fs.name ∧
      (switch_state sampleReg 7 (some sampleC) sampleC2 [] (fun _ => none) 5).st 7 =
        some fs.name :=
  let h := chain_termination_persistence sampleReg 7 (some sampleC) sampleC2 []
    (fun _ => none) 5 rfl
  ⟨rfl, h.1, h.2⟩

/-- C1 witness: a brand-new session sends its first message; the engine
force-enters default state `A` and dispatches no handler. -/
theorem default_fallback_witness :
    _get_state sampleMachine.states (sampleStorageNew.stateTab sampleMsg.fromUser) =
      none ∧
    Event.enter sampleMachine.default_state.name ∈
      (handle_action sampleMachine sampleStorageNew 5 sampleMsg).trace ∧
    ∀ e ∈ (handle_action sampleMachine sampleStorageNew 5 sampleMsg).trace,
      isHandlerEvent e = false :=
  let h := default_fallback sampleMachine sampleStorageNew 5 sampleMsg rfl
  ⟨rfl, h.2.1, h.2.2⟩

end SM
